import Mathlib

/-!
Shallow embedding of `filter_middleware_patch.py`, a tool that filters a
unified-diff patch file down to the sections touching the `middleware/`
subdirectory and rewrites the paths in those sections to be relative to that
subdirectory.

Lines are modelled as `List Char` (Python `str`), documents as the character
sequence of the file after universal-newline translation (so the only newline
character is `'\n'`).  Recursions that the Python source expresses as index
loops are given a fuel argument equal to an upper bound on the number of
iterations, so every definition is structurally recursive and kernel-evaluable;
fuel-independence is proved where it matters (termination of the scan loop).
-/

/-- A line of text, as a character sequence (Python `str`). -/
abbrev Line := List Char

/-- Character list of a string literal. -/
def strL (s : String) : Line := s.toList

/-- `line.startswith('diff --git')` — recogniser for a diff-start line. -/
def isDiffStart (line : Line) : Bool := (strL "diff --git").isPrefixOf line

/-- Python `f.readlines()` on a text-mode file: split the document into lines,
each keeping its trailing `'\n'`; a final chunk without a newline is kept too.
`acc` holds the current (reversed) partial line. -/
def readlinesAux : List Char → List Char → List Line
  | [], acc => if acc = [] then [] else [acc.reverse]
  | c :: cs, acc =>
      if c = '\n' then (acc.reverse ++ ['\n']) :: readlinesAux cs []
      else readlinesAux cs (c :: acc)

/-- The list of lines of a document (Python `f.readlines()`). -/
def readlines (doc : Line) : List Line := readlinesAux doc []

/-- Drop a single trailing `'\n'` if present.  On a `readlines` line this is
exactly the portion of the line that the regex metacharacter `.` can match,
since such a line contains `'\n'` only as its final character. -/
def stripNewline (line : Line) : Line :=
  if line.getLast? = some '\n' then line.dropLast else line

/-- Index of the last occurrence of `pat` in `s` (as a prefix of a suffix),
or `none`.  This is where a greedy leading `(.*)` places the separator. -/
def lastOccurrence (pat s : Line) : Option Nat :=
  ((List.range (s.length + 1)).filter (fun j => pat.isPrefixOf (s.drop j))).getLast?

/-- `re.match(r'diff --git a/middleware/(.*) b/middleware/(.*)', line)`:
the line (up to its trailing newline, which `.` cannot match) must start with
`diff --git a/middleware/`; the first group is greedy, so the literal
` b/middleware/` separator is taken at its last occurrence; the second group
extends to the end.  Returns the two captured groups. -/
def matchMiddleware (line : Line) : Option (Line × Line) :=
  if (strL "diff --git a/middleware/").isPrefixOf (stripNewline line) then
    match lastOccurrence (strL " b/middleware/")
        ((stripNewline line).drop (strL "diff --git a/middleware/").length) with
    | some j =>
        some (((stripNewline line).drop (strL "diff --git a/middleware/").length).take j,
          ((stripNewline line).drop (strL "diff --git a/middleware/").length).drop
            (j + (strL " b/middleware/").length))
    | none => none
  else none

/-- `collect_diff_section(lines, start_index)`: the line at `start_index`
followed by every subsequent line up to (excluding) the next diff-start line
or the end of the list.  (Callers only invoke it with a valid index.) -/
def collect_diff_section (lines : List Line) (start_index : Nat) : List Line :=
  match lines.drop start_index with
  | [] => []
  | l :: rest => l :: rest.takeWhile (fun x => !(isDiffStart x))

/-- `skip_to_next_diff(lines, start_index)`: index of the next diff-start line
at or after `start_index`, or `lines.length` if there is none. -/
def skip_to_next_diff (lines : List Line) (start_index : Nat) : Nat :=
  min (start_index + (lines.drop start_index).findIdx isDiffStart) lines.length

/-- Python `s.replace(pat, repl)` worker for a nonempty `pat`: scan left to
right, replacing non-overlapping occurrences.  `fuel` bounds the number of
characters consumed; each step consumes at least one, so `fuel = s.length`
suffices. -/
def replaceAllAux (pat repl : Line) : Nat → Line → Line
  | _, [] => []
  | 0, s => s
  | fuel + 1, c :: cs =>
      if pat.isPrefixOf (c :: cs) then
        repl ++ replaceAllAux pat repl fuel (List.drop (pat.length - 1) cs)
      else
        c :: replaceAllAux pat repl fuel cs

/-- Python `s.replace(pat, repl)` for the nonempty literal patterns used by
the source (`'--- a/middleware/'`, `'+++ b/middleware/'`): every
non-overlapping occurrence of `pat` in `s` is replaced by `repl`. -/
def pyReplace (pat repl s : Line) : Line := replaceAllAux pat repl s.length s

/-- The body of the `for` loop of `process_middleware_section`: how one line
of an eligible section is emitted. -/
def rewriteLine (path_a path_b : Line) (line : Line) : Line :=
  if isDiffStart line then
    strL "diff --git a/" ++ path_a ++ strL " b/" ++ path_b ++ ['\n']
  else if (strL "--- a/middleware/").isPrefixOf line then
    pyReplace (strL "--- a/middleware/") (strL "--- a/") line
  else if (strL "+++ b/middleware/").isPrefixOf line then
    pyReplace (strL "+++ b/middleware/") (strL "+++ b/") line
  else
    line

/-- `process_middleware_section(section_lines, path_a, path_b)`. -/
def process_middleware_section (section_lines : List Line) (path_a path_b : Line) :
    List Line :=
  section_lines.map (rewriteLine path_a path_b)

/-- The `while i < len(lines)` scan loop of `process_patch_file`, with a fuel
argument: each iteration strictly increases `i`, so `lines.length - i` fuel
suffices (proved below as fuel-independence). -/
def processLoopF (lines : List Line) : Nat → Nat → List Line
  | 0, _ => []
  | fuel + 1, i =>
    if i < lines.length then
      if isDiffStart (lines.getD i []) then
        match matchMiddleware (lines.getD i []) with
        | some (a, b) =>
            process_middleware_section (collect_diff_section lines i) a b ++
              processLoopF lines fuel (i + (collect_diff_section lines i).length)
        | none => processLoopF lines fuel (skip_to_next_diff lines (i + 1))
      else
        processLoopF lines fuel (i + 1)
    else []

/-- The scan loop started at index `i` with sufficient fuel. -/
def processLoop (lines : List Line) (i : Nat) : List Line :=
  processLoopF lines (lines.length - i) i

/-- `process_patch_file(input, output)` on the already-read document text:
returns the messages printed to stdout and, when a diff-start line exists,
`some` of the line list written to the output file (`none` models "no output
file written"). -/
def process_patch_file (doc : Line) (output_file : Line) :
    List Line × Option (List Line) :=
  match (readlines doc).findIdx? isDiffStart with
  | none => ([strL "No 'diff --git' found in the patch file"], none)
  | some start_index =>
      ([strL "Filtered patch written to: " ++ output_file,
        strL "Processed "
          ++ strL (toString (((processLoop (readlines doc) start_index).filter
              isDiffStart).length))
          ++ strL " middleware diff sections"],
       some (processLoop (readlines doc) start_index))

/-- Observable outcome of one run of `main`: the exit code (0 unless
`sys.exit(1)` is reached), the messages printed to stdout, and the output
file written, if any, as destination path and line list. -/
structure MainResult where
  exitCode : Nat
  messages : List Line
  written : Option (Line × List Line)
deriving Repr, DecidableEq

namespace Script

/-- `main()`: `argv` is the full `sys.argv` (program name included); `fs`
models the readable file system, `fs p = some doc` meaning path `p` holds
text `doc` (a `none` read raises `FileNotFoundError`, caught and turned into
exit code 1). -/
def main (argv : List Line) (fs : Line → Option Line) : MainResult :=
  if argv.length ≠ 3 then
    ⟨1,
     [strL "Usage: python filter_middleware_patch.py <input_patch_file> <output_patch_file>",
      strL "Example: python filter_middleware_patch.py sync101225.patch middleware_only.patch"],
     none⟩
  else
    match fs (argv.getD 1 []) with
    | none =>
        ⟨1, [strL "Error: Input file " ++ argv.getD 1 [] ++ strL " not found"], none⟩
    | some doc =>
        ⟨0, (process_patch_file doc (argv.getD 2 [])).1,
         (process_patch_file doc (argv.getD 2 [])).2.map (fun o => (argv.getD 2 [], o))⟩

end Script

/-- Number of eligible (middleware) sections the scan loop identifies from
index `i` on, by the same traversal as the loop, with fuel. -/
def eligibleCountF (lines : List Line) : Nat → Nat → Nat
  | 0, _ => 0
  | fuel + 1, i =>
    if i < lines.length then
      if isDiffStart (lines.getD i []) then
        match matchMiddleware (lines.getD i []) with
        | some _ =>
            1 + eligibleCountF lines fuel (i + (collect_diff_section lines i).length)
        | none => eligibleCountF lines fuel (skip_to_next_diff lines (i + 1))
      else
        eligibleCountF lines fuel (i + 1)
    else 0

/-- Number of eligible sections identified in `lines` from index `i` on. -/
def eligibleCount (lines : List Line) (i : Nat) : Nat :=
  eligibleCountF lines (lines.length - i) i

/-- `true` iff `pat` occurs as a contiguous substring of `s`. -/
def containsSub (pat s : Line) : Bool :=
  (List.range (s.length + 1)).any (fun j => pat.isPrefixOf (s.drop j))

/-! ### Basic facts about prefixes and `isDiffStart` -/

lemma isPrefixOf_cons_cons (a b : Char) (as bs : Line) :
    (a :: as).isPrefixOf (b :: bs) = (a == b && as.isPrefixOf bs) := rfl

lemma isDiffStart_of_prefix {line : Line} (h : strL "diff --git" <+: line) :
    isDiffStart line = true :=
  List.isPrefixOf_iff_prefix.mpr h

lemma isDiffStart_rewritten (a b : Line) :
    isDiffStart (strL "diff --git a/" ++ a ++ strL " b/" ++ b ++ ['\n']) = true := by
  apply isDiffStart_of_prefix
  have h1 : strL "diff --git a/" = strL "diff --git" ++ strL " a/" := rfl
  calc strL "diff --git"
      <+: strL "diff --git a/" := by rw [h1]; exact List.prefix_append _ _
    _ <+: strL "diff --git a/" ++ (a ++ strL " b/" ++ b ++ ['\n']) :=
        List.prefix_append _ _
    _ = strL "diff --git a/" ++ a ++ strL " b/" ++ b ++ ['\n'] := by
        simp [List.append_assoc]

lemma not_isDiffStart_dash (r : Line) : isDiffStart ('-' :: r) = false := by
  have h : strL "diff --git" = 'd' :: strL "iff --git" := rfl
  simp only [isDiffStart, h, isPrefixOf_cons_cons]
  simp only [show ('d' == '-') = false from rfl, Bool.false_and]

lemma not_isDiffStart_plus (r : Line) : isDiffStart ('+' :: r) = false := by
  have h : strL "diff --git" = 'd' :: strL "iff --git" := rfl
  simp only [isDiffStart, h, isPrefixOf_cons_cons]
  simp only [show ('d' == '+') = false from rfl, Bool.false_and]

/-! ### `pyReplace` (Python `str.replace`) -/

lemma replaceAllAux_nil (pat repl : Line) (fuel : Nat) :
    replaceAllAux pat repl fuel [] = [] := by
  cases fuel <;> rfl

lemma replaceAllAux_congr (pat repl : Line) :
    ∀ fuel₁ fuel₂ s, s.length ≤ fuel₁ → s.length ≤ fuel₂ →
      replaceAllAux pat repl fuel₁ s = replaceAllAux pat repl fuel₂ s := by
  intro fuel₁
  induction fuel₁ with
  | zero =>
      intro fuel₂ s h1 _
      have hs : s = [] := List.length_eq_zero.mp (Nat.le_zero.mp h1)
      subst hs
      rw [replaceAllAux_nil, replaceAllAux_nil]
  | succ f ih =>
      intro fuel₂ s h1 h2
      cases s with
      | nil => rw [replaceAllAux_nil, replaceAllAux_nil]
      | cons c cs =>
          cases fuel₂ with
          | zero => exact absurd h2 (by simp)
          | succ g =>
              have hcs : cs.length ≤ f := by simpa using h1
              have hcs₂ : cs.length ≤ g := by simpa using h2
              simp only [replaceAllAux]
              cases hp : pat.isPrefixOf (c :: cs) with
              | true =>
                  simp only [if_true]
                  have hlen : (List.drop (pat.length - 1) cs).length ≤ cs.length := by
                    simp [List.length_drop]
                  rw [ih g _ (le_trans hlen hcs) (le_trans hlen hcs₂)]
              | false =>
                  simp only [Bool.false_eq_true, if_false]
                  rw [ih g _ hcs hcs₂]

lemma replaceAllAux_eq_pyReplace (pat repl : Line) (fuel : Nat) (s : Line)
    (h : s.length ≤ fuel) :
    replaceAllAux pat repl fuel s = pyReplace pat repl s :=
  replaceAllAux_congr pat repl fuel s.length s h le_rfl

lemma pyReplace_cons_of_match (pat repl : Line) (c : Char) (cs : Line)
    (hp : pat.isPrefixOf (c :: cs) = true) :
    pyReplace pat repl (c :: cs) =
      repl ++ pyReplace pat repl (List.drop (pat.length - 1) cs) := by
  show replaceAllAux pat repl (cs.length + 1) (c :: cs) = _
  simp only [replaceAllAux, hp, if_true]
  rw [replaceAllAux_eq_pyReplace]
  simp [List.length_drop]

lemma pyReplace_cons_of_no_match (pat repl : Line) (c : Char) (cs : Line)
    (hp : pat.isPrefixOf (c :: cs) = false) :
    pyReplace pat repl (c :: cs) = c :: pyReplace pat repl cs := by
  show replaceAllAux pat repl (cs.length + 1) (c :: cs) = _
  simp only [replaceAllAux, hp, Bool.false_eq_true, if_false]
  rfl

/-- Replacing a leading occurrence: for nonempty `pat`,
`(pat ++ r).replace(pat, repl) = repl ++ r.replace(pat, repl)`. -/
lemma pyReplace_append_left (pat repl r : Line) (hne : pat ≠ []) :
    pyReplace pat repl (pat ++ r) = repl ++ pyReplace pat repl r := by
  match pat, hne with
  | p₀ :: pt, _ =>
      have hp : (p₀ :: pt).isPrefixOf (p₀ :: pt ++ r) = true :=
        List.isPrefixOf_iff_prefix.mpr (List.prefix_append _ _)
      rw [show (p₀ :: pt) ++ r = p₀ :: (pt ++ r) from rfl] at hp ⊢
      rw [pyReplace_cons_of_match _ _ _ _ hp]
      have hd : List.drop ((p₀ :: pt).length - 1) (pt ++ r) = r := by
        simp only [List.length_cons, Nat.add_sub_cancel]
        exact List.drop_left pt r
      rw [hd]

/-- When `pat` never occurs in `s`, `s.replace(pat, repl) = s`. -/
lemma pyReplace_of_not_containsSub (pat repl : Line) :
    ∀ s, containsSub pat s = false → pyReplace pat repl s = s := by
  intro s
  induction s with
  | nil => intro _; rfl
  | cons c cs ih =>
      intro h
      have h0 : pat.isPrefixOf (c :: cs) = false := by
        by_contra hx
        have hx' : pat.isPrefixOf ((c :: cs).drop 0) = true := by
          simpa using Bool.of_not_eq_false hx
        have : containsSub pat (c :: cs) = true := by
          unfold containsSub
          exact List.any_eq_true.mpr ⟨0, List.mem_range.mpr (by omega), hx'⟩
        simp [this] at h
      have hcs : containsSub pat cs = false := by
        by_contra hx
        have hx' : containsSub pat cs = true := Bool.of_not_eq_false hx
        obtain ⟨j, hj, hpre⟩ := List.any_eq_true.mp hx'
        have hj' : j < cs.length + 1 := List.mem_range.mp hj
        have : containsSub pat (c :: cs) = true := by
          unfold containsSub
          refine List.any_eq_true.mpr ⟨j + 1, List.mem_range.mpr (by simp; omega), ?_⟩
          simpa using hpre
        simp [this] at h
      rw [pyReplace_cons_of_no_match _ _ _ _ h0, ih hcs]

/-! ### `collect_diff_section` and `skip_to_next_diff` -/

lemma findIdx_eq_length_takeWhile_not (p : α → Bool) (l : List α) :
    List.findIdx p l = (l.takeWhile (fun x => !(p x))).length := by
  induction l with
  | nil => simp
  | cons a l ih =>
      rw [List.findIdx_cons, List.takeWhile_cons]
      cases hp : p a with
      | true => simp [hp]
      | false => simp [hp, ih]

lemma collect_diff_section_cons (lines : List Line) (i : Nat) (h : i < lines.length) :
    collect_diff_section lines i =
      lines[i] :: (lines.drop (i + 1)).takeWhile (fun x => !(isDiffStart x)) := by
  unfold collect_diff_section
  rw [List.drop_eq_getElem_cons h]

lemma collect_diff_section_length_pos (lines : List Line) (i : Nat)
    (h : i < lines.length) : 1 ≤ (collect_diff_section lines i).length := by
  rw [collect_diff_section_cons lines i h]
  simp

lemma skip_to_next_diff_ge (lines : List Line) (i : Nat) (h : i < lines.length) :
    i + 1 ≤ skip_to_next_diff lines (i + 1) := by
  unfold skip_to_next_diff
  have : i + 1 ≤ lines.length := h
  omega

lemma skip_to_next_diff_eq_collect (lines : List Line) (i : Nat)
    (h : i < lines.length) :
    skip_to_next_diff lines (i + 1) = i + (collect_diff_section lines i).length := by
  unfold skip_to_next_diff
  rw [collect_diff_section_cons lines i h]
  rw [findIdx_eq_length_takeWhile_not]
  have htw : ((lines.drop (i + 1)).takeWhile (fun x => !(isDiffStart x))).length
      ≤ lines.length - (i + 1) := by
    have := List.IsPrefix.length_le (List.takeWhile_prefix
      (l := lines.drop (i + 1)) (fun x => !(isDiffStart x)))
    simpa [List.length_drop] using this
  simp only [List.length_cons]
  omega

/-! ### Fuel-independence of the scan loop -/

lemma processLoopF_of_le (lines : List Line) (fuel i : Nat)
    (h : lines.length ≤ i) : processLoopF lines fuel i = [] := by
  cases fuel with
  | zero => rfl
  | succ f =>
      unfold processLoopF
      rw [if_neg (by omega)]

lemma processLoopF_congr (lines : List Line) :
    ∀ fuel₁ fuel₂ i, lines.length - i ≤ fuel₁ → lines.length - i ≤ fuel₂ →
      processLoopF lines fuel₁ i = processLoopF lines fuel₂ i := by
  intro fuel₁
  induction fuel₁ with
  | zero =>
      intro fuel₂ i h1 _
      have : lines.length ≤ i := by omega
      rw [processLoopF_of_le lines _ _ this, processLoopF_of_le lines _ _ this]
  | succ f ih =>
      intro fuel₂ i h1 h2
      by_cases hi : i < lines.length
      · cases fuel₂ with
        | zero => omega
        | succ g =>
            unfold processLoopF
            rw [if_pos hi, if_pos hi]
            cases hd : isDiffStart (lines.getD i []) with
            | false =>
                simp only [Bool.false_eq_true, if_false]
                exact ih g (i + 1) (by omega) (by omega)
            | true =>
                simp only [if_true]
                cases hm : matchMiddleware (lines.getD i []) with
                | none =>
                    have hs := skip_to_next_diff_ge lines i hi
                    exact ih g _ (by omega) (by omega)
                | some ab =>
                    have hc := collect_diff_section_length_pos lines i hi
                    rw [ih g (i + (collect_diff_section lines i).length)
                      (by omega) (by omega)]
      · rw [processLoopF_of_le lines _ _ (by omega),
            processLoopF_of_le lines _ _ (by omega)]

lemma processLoopF_eq_processLoop (lines : List Line) (fuel i : Nat)
    (h : lines.length - i ≤ fuel) :
    processLoopF lines fuel i = processLoop lines i :=
  processLoopF_congr lines fuel (lines.length - i) i h le_rfl

/-- One unfolding of the scan loop at a valid index. -/
lemma processLoop_eq (lines : List Line) (i : Nat) (h : i < lines.length) :
    processLoop lines i =
      if isDiffStart (lines.getD i []) then
        match matchMiddleware (lines.getD i []) with
        | some (a, b) =>
            process_middleware_section (collect_diff_section lines i) a b ++
              processLoop lines (i + (collect_diff_section lines i).length)
        | none => processLoop lines (skip_to_next_diff lines (i + 1))
      else processLoop lines (i + 1) := by
  have hfuel : lines.length - i = (lines.length - (i + 1)) + 1 := by omega
  show processLoopF lines (lines.length - i) i = _
  rw [hfuel]
  unfold processLoopF
  rw [if_pos h]
  cases hd : isDiffStart (lines.getD i []) with
  | false =>
      simp only [Bool.false_eq_true, if_false]
      exact processLoopF_eq_processLoop lines _ _ (by omega)
  | true =>
      simp only [if_true]
      cases hm : matchMiddleware (lines.getD i []) with
      | none =>
          have hs := skip_to_next_diff_ge lines i h
          exact processLoopF_eq_processLoop lines _ _ (by omega)
      | some ab =>
          obtain ⟨a, b⟩ := ab
          have hc := collect_diff_section_length_pos lines i h
          rw [processLoopF_eq_processLoop lines _ _ (by omega)]

lemma processLoop_of_le (lines : List Line) (i : Nat) (h : lines.length ≤ i) :
    processLoop lines i = [] :=
  processLoopF_of_le lines _ i h

/-! ### `rewriteLine` and diff-start lines -/

lemma rewriteLine_of_diffStart (a b line : Line) (h : isDiffStart line = true) :
    rewriteLine a b line = strL "diff --git a/" ++ a ++ strL " b/" ++ b ++ ['\n'] := by
  unfold rewriteLine
  rw [if_pos h]

lemma rewriteLine_diffStart (a b line : Line) (h : isDiffStart line = true) :
    isDiffStart (rewriteLine a b line) = true := by
  rw [rewriteLine_of_diffStart a b line h]
  exact isDiffStart_rewritten a b

lemma rewriteLine_not_diffStart (a b line : Line) (h : isDiffStart line = false) :
    isDiffStart (rewriteLine a b line) = false := by
  unfold rewriteLine
  rw [if_neg (by simp [h])]
  by_cases h1 : (strL "--- a/middleware/").isPrefixOf line = true
  · rw [if_pos h1]
    obtain ⟨t, ht⟩ := List.isPrefixOf_iff_prefix.mp h1
    subst ht
    rw [pyReplace_append_left _ _ _ (by decide)]
    rw [show strL "--- a/" = '-' :: strL "-- a/" from rfl, List.cons_append]
    exact not_isDiffStart_dash _
  · rw [if_neg h1]
    by_cases h2 : (strL "+++ b/middleware/").isPrefixOf line = true
    · rw [if_pos h2]
      obtain ⟨t, ht⟩ := List.isPrefixOf_iff_prefix.mp h2
      subst ht
      rw [pyReplace_append_left _ _ _ (by decide)]
      rw [show strL "+++ b/" = '+' :: strL "++ b/" from rfl, List.cons_append]
      exact not_isDiffStart_plus _
    · rw [if_neg h2]
      exact h

/-- An eligible section as collected contributes exactly one `diff --git`
line to the output. -/
lemma section_diff_count (lines : List Line) (i : Nat) (a b : Line)
    (h : i < lines.length) (hd : isDiffStart (lines.getD i []) = true) :
    (process_middleware_section (collect_diff_section lines i) a b).filter
      isDiffStart = [strL "diff --git a/" ++ a ++ strL " b/" ++ b ++ ['\n']] := by
  rw [collect_diff_section_cons lines i h]
  unfold process_middleware_section
  rw [List.map_cons]
  have hget : lines[i] = lines.getD i [] := (List.getD_eq_getElem lines [] h).symm
  rw [List.filter_cons_of_pos (by rw [hget]; exact rewriteLine_diffStart a b _ hd)]
  rw [hget, rewriteLine_of_diffStart a b _ hd]
  congr 1
  rw [List.filter_eq_nil_iff]
  intro x hx
  obtain ⟨y, hy, hxy⟩ := List.mem_map.mp hx
  have hyn : isDiffStart y = false := by
    have := List.mem_takeWhile_imp hy
    simpa using this
  rw [← hxy]
  simp [rewriteLine_not_diffStart a b y hyn]

/-! ### `matchMiddleware` characterisation -/

/-- A successful regex match reconstructs the newline-stripped line: the
original two paths are `middleware/` ++ the captured groups. -/
lemma matchMiddleware_eq_append (line a b : Line)
    (h : matchMiddleware line = some (a, b)) :
    stripNewline line =
      strL "diff --git a/middleware/" ++ a ++ strL " b/middleware/" ++ b := by
  unfold matchMiddleware at h
  by_cases hp : (strL "diff --git a/middleware/").isPrefixOf (stripNewline line) = true
  · rw [if_pos hp] at h
    cases hlast : lastOccurrence (strL " b/middleware/")
        ((stripNewline line).drop (strL "diff --git a/middleware/").length) with
    | none => rw [hlast] at h; exact absurd h (by simp)
    | some j =>
        rw [hlast] at h
        simp only [Option.some.injEq, Prod.mk.injEq] at h
        obtain ⟨ha, hb⟩ := h
        obtain ⟨t, ht⟩ := List.isPrefixOf_iff_prefix.mp hp
        have hrest : (stripNewline line).drop (strL "diff --git a/middleware/").length
            = t := by rw [← ht, List.drop_left]
        rw [hrest] at ha hb hlast
        have hj : (strL " b/middleware/").isPrefixOf (t.drop j) = true := by
          obtain ⟨ys, hys⟩ := List.getLast?_eq_some_iff.mp hlast
          have hjmem : j ∈ (List.range (t.length + 1)).filter
              (fun k => (strL " b/middleware/").isPrefixOf (t.drop k)) := by
            show j ∈ (List.range (t.length + 1)).filter
              (fun k => (strL " b/middleware/").isPrefixOf (t.drop k))
            rw [show (List.range (t.length + 1)).filter
                (fun k => (strL " b/middleware/").isPrefixOf (t.drop k)) = ys ++ [j]
              from hys]
            exact List.mem_append_right ys (List.mem_singleton.mpr rfl)
          exact (List.mem_filter.mp hjmem).2
        obtain ⟨u, hu⟩ := List.isPrefixOf_iff_prefix.mp hj
        have hb' : b = u := by
          rw [← hb, ← List.drop_drop, ← hu, List.drop_left]
        have hsplit : t = a ++ strL " b/middleware/" ++ u := by
          rw [List.append_assoc, hu, ← ha, List.take_append_drop]
        rw [← ht, hsplit, hb']
        simp [List.append_assoc]
  · rw [if_neg hp] at h
    exact absurd h (by simp)

/-- A line the regex matches is in particular a diff-start line. -/
lemma matchMiddleware_isDiffStart (line : Line) (ab : Line × Line)
    (h : matchMiddleware line = some ab) : isDiffStart line = true := by
  unfold matchMiddleware at h
  by_cases hp : (strL "diff --git a/middleware/").isPrefixOf (stripNewline line) = true
  · apply isDiffStart_of_prefix
    obtain ⟨t, ht⟩ := List.isPrefixOf_iff_prefix.mp hp
    have h1 : strL "diff --git" <+: stripNewline line := by
      rw [← ht]
      have : strL "diff --git a/middleware/" = strL "diff --git" ++ strL " a/middleware/" := rfl
      rw [this, List.append_assoc]
      exact List.prefix_append _ _
    refine h1.trans ?_
    unfold stripNewline
    by_cases hl : line.getLast? = some '\n'
    · rw [if_pos hl]; exact List.dropLast_prefix line
    · rw [if_neg hl]
  · rw [if_neg hp] at h
    exact absurd h (by simp)

/-! ### `takeWhile` boundary and output diff-line count -/

lemma takeWhile_boundary {α : Type} (p : α → Bool) (d : α) :
    ∀ l : List α, (l.takeWhile p).length < l.length →
      p (l.getD (l.takeWhile p).length d) = false := by
  intro l
  induction l with
  | nil => intro h; simp at h
  | cons a l ih =>
      intro h
      cases hp : p a with
      | false =>
          have ht : (a :: l).takeWhile p = [] := by
            rw [List.takeWhile_cons, if_neg (by simp [hp])]
          rw [ht]
          simpa using hp
      | true =>
          have ht : (a :: l).takeWhile p = a :: l.takeWhile p := by
            rw [List.takeWhile_cons, if_pos hp]
          rw [ht] at h ⊢
          rw [List.length_cons, List.getD_cons_succ]
          exact ih (by simpa using h)

lemma processLoopF_filter_count (lines : List Line) :
    ∀ fuel i, ((processLoopF lines fuel i).filter isDiffStart).length =
      eligibleCountF lines fuel i := by
  intro fuel
  induction fuel with
  | zero => intro i; rfl
  | succ f ih =>
      intro i
      unfold processLoopF eligibleCountF
      by_cases hi : i < lines.length
      · rw [if_pos hi, if_pos hi]
        cases hd : isDiffStart (lines.getD i []) with
        | false =>
            simp only [Bool.false_eq_true, if_false]
            exact ih (i + 1)
        | true =>
            simp only [if_true]
            cases hm : matchMiddleware (lines.getD i []) with
            | none => exact ih (skip_to_next_diff lines (i + 1))
            | some ab =>
                obtain ⟨a, b⟩ := ab
                rw [List.filter_append, List.length_append,
                  section_diff_count lines i a b hi hd]
                simp only [List.length_cons, List.length_nil]
                rw [ih (i + (collect_diff_section lines i).length)]
      · rw [if_neg hi, if_neg hi]
        rfl

/-! ### Claim theorems -/

/-- C1: a diff section whose diff-start line does not match the middleware
pattern (both paths under `middleware/`) is entirely absent from the output:
the scan from its diff-start line produces exactly the output of the scan
resumed after the whole section, so not even its diff-start line is emitted
and the eligible sections that follow still appear; in particular such a
line never aborts processing. -/
theorem nonMiddleware_section_entirely_absent (lines : List Line) (i : Nat)
    (h : i < lines.length)
    (hd : isDiffStart (lines.getD i []) = true)
    (hm : matchMiddleware (lines.getD i []) = none) :
    processLoop lines i =
      processLoop lines (i + (collect_diff_section lines i).length) := by
  rw [processLoop_eq lines i h, if_pos hd, hm,
    skip_to_next_diff_eq_collect lines i h]

theorem nonMiddleware_section_entirely_absent_witness :
    0 < ([strL "diff --git a/x b/x\n", strL "junk\n",
          strL "diff --git a/middleware/f b/middleware/f\n"] : List Line).length ∧
    processLoop [strL "diff --git a/x b/x\n", strL "junk\n",
        strL "diff --git a/middleware/f b/middleware/f\n"] 0 =
      processLoop [strL "diff --git a/x b/x\n", strL "junk\n",
          strL "diff --git a/middleware/f b/middleware/f\n"]
        (0 + (collect_diff_section [strL "diff --git a/x b/x\n", strL "junk\n",
          strL "diff --git a/middleware/f b/middleware/f\n"] 0).length) :=
  ⟨by decide, nonMiddleware_section_entirely_absent _ 0 (by decide) (by decide)
    (by decide)⟩

/-- C2: for an eligible section, the regex groups `a`, `b` reconstruct the
original diff-start line as `diff --git a/middleware/<a> b/middleware/<b>`
(so the original paths are `middleware/` ++ the emitted ones, with no other
segment altered), and the line the section rewrite emits in its place is
exactly `diff --git a/<a> b/<b>`. -/
theorem eligible_diffStart_paths_stripped (line a b : Line) (sec : List Line)
    (h : matchMiddleware line = some (a, b)) :
    stripNewline line =
      strL "diff --git a/middleware/" ++ a ++ strL " b/middleware/" ++ b ∧
    (process_middleware_section (line :: sec) a b).head? =
      some (strL "diff --git a/" ++ a ++ strL " b/" ++ b ++ ['\n']) := by
  refine ⟨matchMiddleware_eq_append line a b h, ?_⟩
  unfold process_middleware_section
  rw [List.map_cons, List.head?_cons,
    rewriteLine_of_diffStart a b line (matchMiddleware_isDiffStart line (a, b) h)]

theorem eligible_diffStart_paths_stripped_witness :
    matchMiddleware (strL "diff --git a/middleware/h.go b/middleware/h.go\n") =
      some (strL "h.go", strL "h.go") ∧
    (stripNewline (strL "diff --git a/middleware/h.go b/middleware/h.go\n") =
      strL "diff --git a/middleware/" ++ strL "h.go" ++ strL " b/middleware/"
        ++ strL "h.go" ∧
    (process_middleware_section
        [strL "diff --git a/middleware/h.go b/middleware/h.go\n"]
        (strL "h.go") (strL "h.go")).head? =
      some (strL "diff --git a/" ++ strL "h.go" ++ strL " b/" ++ strL "h.go"
        ++ ['\n'])) :=
  ⟨by decide, eligible_diffStart_paths_stripped _ _ _ [] (by decide)⟩

/-- C3 as stated is false: `str.replace` rewrites every occurrence of
`--- a/middleware/`, not only the leading one.  Concretely, inside an
eligible section the line `--- a/middleware/p --- a/middleware/q\n` is
emitted as `--- a/p --- a/q\n`, not with only its leading prefix replaced
(which would give `--- a/p --- a/middleware/q\n`). -/
theorem marker_line_not_only_leading_prefix :
    process_middleware_section
        [strL "diff --git a/middleware/x b/middleware/x\n",
         strL "--- a/middleware/p --- a/middleware/q\n"]
        (strL "x") (strL "x") =
      [strL "diff --git a/x b/x\n", strL "--- a/p --- a/q\n"] ∧
    strL "--- a/p --- a/q\n" ≠ strL "--- a/" ++ strL "p --- a/middleware/q\n" := by
  decide

/-- C3 (amended): a line beginning with the literal `--- a/middleware/`
whose remainder contains no further occurrence of that literal is emitted
with exactly the leading prefix replaced by `--- a/` and the remainder kept
verbatim (including an empty remainder), and analogously for
`+++ b/middleware/`; when the remainder does contain the literal again,
every occurrence is replaced. -/
theorem marker_lines_leading_prefix_stripped (a b r s : Line)
    (h1 : containsSub (strL "--- a/middleware/") r = false)
    (h2 : containsSub (strL "+++ b/middleware/") s = false) :
    rewriteLine a b (strL "--- a/middleware/" ++ r) = strL "--- a/" ++ r ∧
    rewriteLine a b (strL "+++ b/middleware/" ++ s) = strL "+++ b/" ++ s := by
  constructor
  · unfold rewriteLine
    rw [if_neg (by
      rw [show strL "--- a/middleware/" ++ r = '-' :: (strL "-- a/middleware/" ++ r)
        from rfl]
      simp [not_isDiffStart_dash])]
    rw [if_pos (List.isPrefixOf_iff_prefix.mpr (List.prefix_append _ _))]
    rw [pyReplace_append_left _ _ _ (by decide),
      pyReplace_of_not_containsSub _ _ _ h1]
  · unfold rewriteLine
    rw [if_neg (by
      rw [show strL "+++ b/middleware/" ++ s = '+' :: (strL "++ b/middleware/" ++ s)
        from rfl]
      simp [not_isDiffStart_plus])]
    rw [if_neg (by
      rw [show strL "+++ b/middleware/" ++ s = '+' :: (strL "++ b/middleware/" ++ s)
            from rfl,
          show strL "--- a/middleware/" = '-' :: strL "-- a/middleware/" from rfl,
          isPrefixOf_cons_cons]
      simp [show ('-' == '+') = false from rfl])]
    rw [if_pos (List.isPrefixOf_iff_prefix.mpr (List.prefix_append _ _))]
    rw [pyReplace_append_left _ _ _ (by decide),
      pyReplace_of_not_containsSub _ _ _ h2]

theorem marker_lines_leading_prefix_stripped_witness :
    containsSub (strL "--- a/middleware/") (strL "h.go\n") = false ∧
    containsSub (strL "+++ b/middleware/") (strL "h.go\n") = false ∧
    rewriteLine (strL "h.go") (strL "h.go")
        (strL "--- a/middleware/" ++ strL "h.go\n") = strL "--- a/" ++ strL "h.go\n" ∧
    rewriteLine (strL "h.go") (strL "h.go")
        (strL "+++ b/middleware/" ++ strL "h.go\n") = strL "+++ b/" ++ strL "h.go\n" :=
  ⟨by decide, by decide,
    (marker_lines_leading_prefix_stripped (strL "h.go") (strL "h.go")
      (strL "h.go\n") (strL "h.go\n") (by decide) (by decide)).1,
    (marker_lines_leading_prefix_stripped (strL "h.go") (strL "h.go")
      (strL "h.go\n") (strL "h.go\n") (by decide) (by decide)).2⟩

/-- C4: inside an eligible section, a line that is neither a diff-start line
nor begins with `--- a/middleware/` or `+++ b/middleware/` appears in the
output at the same position, byte-for-byte identical (line ending included). -/
theorem other_lines_copied_verbatim (sec : List Line) (a b : Line) (k : Nat)
    (line : Line)
    (hk : sec[k]? = some line)
    (h1 : isDiffStart line = false)
    (h2 : (strL "--- a/middleware/").isPrefixOf line = false)
    (h3 : (strL "+++ b/middleware/").isPrefixOf line = false) :
    (process_middleware_section sec a b)[k]? = some line := by
  unfold process_middleware_section
  rw [List.getElem?_map, hk]
  have : rewriteLine a b line = line := by
    unfold rewriteLine
    rw [if_neg (by simp [h1]), if_neg (by simp [h2]), if_neg (by simp [h3])]
  simp [this]

theorem other_lines_copied_verbatim_witness :
    ([strL "diff --git a/middleware/f b/middleware/f\n", strL "@@ -1 +1 @@\n"]
      : List Line)[1]? = some (strL "@@ -1 +1 @@\n") ∧
    (process_middleware_section
        [strL "diff --git a/middleware/f b/middleware/f\n", strL "@@ -1 +1 @@\n"]
        (strL "f") (strL "f"))[1]? = some (strL "@@ -1 +1 @@\n") :=
  ⟨by decide, other_lines_copied_verbatim _ _ _ 1 _ (by decide) (by decide)
    (by decide) (by decide)⟩

/-- C5: on an input document with no diff-start line, the run prints the
informational message, writes no output file, forces no non-zero exit code,
and no exception escapes (the run completes with a defined result). -/
theorem no_diff_marker_is_soft (prog input out doc : Line)
    (fs : Line → Option Line)
    (hfs : fs input = some doc)
    (hnd : ∀ l ∈ readlines doc, isDiffStart l = false) :
    Script.main [prog, input, out] fs =
      ⟨0, [strL "No 'diff --git' found in the patch file"], none⟩ := by
  unfold Script.main
  rw [if_neg (by simp)]
  simp only [List.getD_cons_succ, List.getD_cons_zero, hfs]
  unfold process_patch_file
  rw [List.findIdx?_eq_none_iff.mpr hnd]
  rfl

theorem no_diff_marker_is_soft_witness :
    (fun p => if p = strL "in.patch" then some (strL "hello\nworld\n") else none)
        (strL "in.patch") = some (strL "hello\nworld\n") ∧
    (∀ l ∈ readlines (strL "hello\nworld\n"), isDiffStart l = false) ∧
    Script.main [strL "prog", strL "in.patch", strL "out.patch"]
        (fun p => if p = strL "in.patch" then some (strL "hello\nworld\n") else none) =
      ⟨0, [strL "No 'diff --git' found in the patch file"], none⟩ :=
  ⟨by decide, by decide,
    no_diff_marker_is_soft (strL "prog") (strL "in.patch") (strL "out.patch")
      (strL "hello\nworld\n")
      (fun p => if p = strL "in.patch" then some (strL "hello\nworld\n") else none)
      (by decide) (by decide)⟩

/-- C6: starting from a diff-start line at a valid index, the collected
section is nonempty, is the contiguous run of lines starting there, contains
no further diff-start line after its first line, and ends exactly at the end
of the list or immediately before the next diff-start line (which is not
consumed) — so consecutive sections tile the list with no gap or overlap. -/
theorem collect_section_maximal (lines : List Line) (i : Nat)
    (h : i < lines.length)
    (_hd : isDiffStart (lines.getD i []) = true) :
    1 ≤ (collect_diff_section lines i).length ∧
    collect_diff_section lines i =
      (lines.drop i).take (collect_diff_section lines i).length ∧
    (∀ k, 1 ≤ k → k < (collect_diff_section lines i).length →
      isDiffStart ((collect_diff_section lines i).getD k []) = false) ∧
    (i + (collect_diff_section lines i).length = lines.length ∨
      (i + (collect_diff_section lines i).length < lines.length ∧
       isDiffStart (lines.getD (i + (collect_diff_section lines i).length) []) =
         true)) := by
  have hc := collect_diff_section_cons lines i h
  refine ⟨collect_diff_section_length_pos lines i h, ?_, ?_, ?_⟩
  · apply List.prefix_iff_eq_take.mp
    rw [hc, List.drop_eq_getElem_cons h]
    exact List.cons_prefix_cons.mpr ⟨rfl, List.takeWhile_prefix _⟩
  · intro k hk1 hk2
    rw [hc] at hk2 ⊢
    obtain ⟨k', rfl⟩ : ∃ k', k = k' + 1 := ⟨k - 1, by omega⟩
    rw [List.getD_cons_succ]
    rw [List.length_cons] at hk2
    have hk' : k' <
        ((lines.drop (i + 1)).takeWhile (fun x => !(isDiffStart x))).length := by
      omega
    have hmem : ((lines.drop (i + 1)).takeWhile
          (fun x => !(isDiffStart x))).getD k' [] ∈
        (lines.drop (i + 1)).takeWhile (fun x => !(isDiffStart x)) := by
      rw [List.getD_eq_getElem _ _ hk']
      exact List.getElem_mem hk'
    have := List.mem_takeWhile_imp hmem
    simpa using this
  · by_cases hend : ((lines.drop (i + 1)).takeWhile
        (fun x => !(isDiffStart x))).length = (lines.drop (i + 1)).length
    · left
      rw [hc, List.length_cons, hend, List.length_drop]
      omega
    · have hlt : ((lines.drop (i + 1)).takeWhile
          (fun x => !(isDiffStart x))).length < (lines.drop (i + 1)).length :=
        lt_of_le_of_ne
          (List.IsPrefix.length_le (List.takeWhile_prefix _)) hend
      have hb := takeWhile_boundary (fun x => !(isDiffStart x)) ([] : Line)
        (lines.drop (i + 1)) hlt
      right
      constructor
      · rw [hc, List.length_cons]
        rw [List.length_drop] at hlt
        omega
      · rw [hc, List.length_cons]
        have hidx : lines.getD
            (i + (((lines.drop (i + 1)).takeWhile
              (fun x => !(isDiffStart x))).length + 1)) [] =
            (lines.drop (i + 1)).getD
              ((lines.drop (i + 1)).takeWhile
                (fun x => !(isDiffStart x))).length [] := by
          rw [List.getD_eq_getElem?_getD, List.getD_eq_getElem?_getD,
            List.getElem?_drop]
          congr 2
          omega
        rw [hidx]
        simpa using hb

theorem collect_section_maximal_witness :
    (0 < ([strL "diff --git a/middleware/f b/middleware/f\n", strL "x\n",
        strL "diff --git a/q b/q\n"] : List Line).length ∧
      isDiffStart (([strL "diff --git a/middleware/f b/middleware/f\n",
        strL "x\n", strL "diff --git a/q b/q\n"] : List Line).getD 0 []) = true) ∧
    (1 ≤ (collect_diff_section [strL "diff --git a/middleware/f b/middleware/f\n",
        strL "x\n", strL "diff --git a/q b/q\n"] 0).length ∧
      collect_diff_section [strL "diff --git a/middleware/f b/middleware/f\n",
          strL "x\n", strL "diff --git a/q b/q\n"] 0 =
        (([strL "diff --git a/middleware/f b/middleware/f\n", strL "x\n",
          strL "diff --git a/q b/q\n"] : List Line).drop 0).take
          (collect_diff_section [strL "diff --git a/middleware/f b/middleware/f\n",
            strL "x\n", strL "diff --git a/q b/q\n"] 0).length ∧
      (∀ k, 1 ≤ k →
        k < (collect_diff_section [strL "diff --git a/middleware/f b/middleware/f\n",
          strL "x\n", strL "diff --git a/q b/q\n"] 0).length →
        isDiffStart ((collect_diff_section
          [strL "diff --git a/middleware/f b/middleware/f\n", strL "x\n",
           strL "diff --git a/q b/q\n"] 0).getD k []) = false) ∧
      (0 + (collect_diff_section [strL "diff --git a/middleware/f b/middleware/f\n",
          strL "x\n", strL "diff --git a/q b/q\n"] 0).length =
        ([strL "diff --git a/middleware/f b/middleware/f\n", strL "x\n",
          strL "diff --git a/q b/q\n"] : List Line).length ∨
        (0 + (collect_diff_section [strL "diff --git a/middleware/f b/middleware/f\n",
            strL "x\n", strL "diff --git a/q b/q\n"] 0).length <
          ([strL "diff --git a/middleware/f b/middleware/f\n", strL "x\n",
            strL "diff --git a/q b/q\n"] : List Line).length ∧
         isDiffStart (([strL "diff --git a/middleware/f b/middleware/f\n",
            strL "x\n", strL "diff --git a/q b/q\n"] : List Line).getD
            (0 + (collect_diff_section
              [strL "diff --git a/middleware/f b/middleware/f\n", strL "x\n",
               strL "diff --git a/q b/q\n"] 0).length) []) = true))) :=
  ⟨⟨by decide, by decide⟩,
    collect_section_maximal _ 0 (by decide) (by decide)⟩

/-- C7: a diff-start line whose path is exactly `middleware` with no trailing
separator does not match the middleware pattern, and its whole section is
excluded from the output, while a true `middleware/` subdirectory section is
still included — only paths beginning with `middleware/` match. -/
theorem exact_middleware_path_excluded :
    matchMiddleware (strL "diff --git a/middleware b/middleware\n") = none ∧
    isDiffStart (strL "diff --git a/middleware b/middleware\n") = true ∧
    (process_patch_file
        (strL "diff --git a/middleware b/middleware\n--- a/middleware\n+++ b/middleware\ndiff --git a/middleware/f b/middleware/f\n--- a/middleware/f\n+++ b/middleware/f\n ctx\n")
        (strL "out")).2 =
      some [strL "diff --git a/f b/f\n", strL "--- a/f\n", strL "+++ b/f\n",
        strL " ctx\n"] := by
  refine ⟨by decide, by decide, ?_⟩
  decide

/-- C8: when the document has a diff-start line, the number of `diff --git`
lines in the written output equals the number of eligible sections the scan
identifies in the input, and the reported count message displays exactly
this number (it is counted from the emitted diff-start lines). -/
theorem output_diff_count_eq_eligible (doc out : Line) (start_index : Nat)
    (h : (readlines doc).findIdx? isDiffStart = some start_index) :
    ((processLoop (readlines doc) start_index).filter isDiffStart).length =
      eligibleCount (readlines doc) start_index ∧
    (process_patch_file doc out).2 =
      some (processLoop (readlines doc) start_index) ∧
    (process_patch_file doc out).1 =
      [strL "Filtered patch written to: " ++ out,
       strL "Processed "
         ++ strL (toString (eligibleCount (readlines doc) start_index))
         ++ strL " middleware diff sections"] := by
  have hcount : ((processLoop (readlines doc) start_index).filter
      isDiffStart).length = eligibleCount (readlines doc) start_index :=
    processLoopF_filter_count (readlines doc) _ start_index
  refine ⟨hcount, ?_, ?_⟩
  · unfold process_patch_file
    rw [h]
  · unfold process_patch_file
    rw [h]
    simp only [hcount]

theorem output_diff_count_eq_eligible_witness :
    (readlines (strL "diff --git a/x b/x\nctx\ndiff --git a/middleware/f b/middleware/f\n--- a/middleware/f\n+++ b/middleware/f\n")).findIdx?
        isDiffStart = some 0 ∧
    (((processLoop (readlines (strL "diff --git a/x b/x\nctx\ndiff --git a/middleware/f b/middleware/f\n--- a/middleware/f\n+++ b/middleware/f\n")) 0).filter
        isDiffStart).length =
      eligibleCount (readlines (strL "diff --git a/x b/x\nctx\ndiff --git a/middleware/f b/middleware/f\n--- a/middleware/f\n+++ b/middleware/f\n")) 0 ∧
    (process_patch_file (strL "diff --git a/x b/x\nctx\ndiff --git a/middleware/f b/middleware/f\n--- a/middleware/f\n+++ b/middleware/f\n") (strL "o")).2 =
      some (processLoop (readlines (strL "diff --git a/x b/x\nctx\ndiff --git a/middleware/f b/middleware/f\n--- a/middleware/f\n+++ b/middleware/f\n")) 0) ∧
    (process_patch_file (strL "diff --git a/x b/x\nctx\ndiff --git a/middleware/f b/middleware/f\n--- a/middleware/f\n+++ b/middleware/f\n") (strL "o")).1 =
      [strL "Filtered patch written to: " ++ strL "o",
       strL "Processed "
         ++ strL (toString (eligibleCount (readlines (strL "diff --git a/x b/x\nctx\ndiff --git a/middleware/f b/middleware/f\n--- a/middleware/f\n+++ b/middleware/f\n")) 0))
         ++ strL " middleware diff sections"]) :=
  ⟨by decide,
    output_diff_count_eq_eligible _ (strL "o") 0 (by decide)⟩

/-- C9: with any argument count other than exactly two positional arguments
(three `argv` entries counting the program name), the program prints the
usage message with its example invocation and exits with status 1, reading
no input and writing no output file: the result is the same for every file
system `fs`. -/
theorem wrong_arg_count_usage_exit (argv : List Line) (h : argv.length ≠ 3) :
    ∀ fs, Script.main argv fs =
      ⟨1,
       [strL "Usage: python filter_middleware_patch.py <input_patch_file> <output_patch_file>",
        strL "Example: python filter_middleware_patch.py sync101225.patch middleware_only.patch"],
       none⟩ := by
  intro fs
  unfold Script.main
  rw [if_pos h]

theorem wrong_arg_count_usage_exit_witness :
    ([strL "prog"] : List Line).length ≠ 3 ∧
    Script.main [strL "prog"] (fun _ => none) =
      ⟨1,
       [strL "Usage: python filter_middleware_patch.py <input_patch_file> <output_patch_file>",
        strL "Example: python filter_middleware_patch.py sync101225.patch middleware_only.patch"],
       none⟩ :=
  ⟨by decide, wrong_arg_count_usage_exit [strL "prog"] (by decide) (fun _ => none)⟩

/-- C10: the scan loop terminates.  At a valid index, an eligible section
advances the index by the section length (at least one), and a non-matching
diff-start line advances it to at least the following index via
skip-to-next-diff; consequently `lines.length - i` iterations of fuel are
enough: the loop's value with any sufficient fuel equals its value with
exactly `lines.length - i`, so the scan reaches the end of the sequence. -/
theorem scan_loop_terminates (lines : List Line) (i fuel : Nat)
    (hf : lines.length - i ≤ fuel) :
    (∀ j, j < lines.length → j + 1 ≤ j + (collect_diff_section lines j).length) ∧
    (∀ j, j < lines.length → j + 1 ≤ skip_to_next_diff lines (j + 1)) ∧
    processLoopF lines fuel i = processLoop lines i := by
  refine ⟨?_, ?_, processLoopF_eq_processLoop lines fuel i hf⟩
  · intro j hj
    have := collect_diff_section_length_pos lines j hj
    omega
  · intro j hj
    exact skip_to_next_diff_ge lines j hj

theorem scan_loop_terminates_witness :
    (([strL "diff --git a/middleware/f b/middleware/f\n", strL "x\n"]
        : List Line).length - 0 ≤ 5) ∧
    processLoopF [strL "diff --git a/middleware/f b/middleware/f\n", strL "x\n"]
        5 0 =
      processLoop [strL "diff --git a/middleware/f b/middleware/f\n",
        strL "x\n"] 0 :=
  ⟨by decide,
    (scan_loop_terminates [strL "diff --git a/middleware/f b/middleware/f\n",
      strL "x\n"] 0 5 (by decide)).2.2⟩
